import Mathlib

/-!
Shallow embedding of the secret-santa solver (`src/solver.py`).

Modelling choices, each tied to a line of the source:

* A participant record (`{"name": ..., "email": ...}` in `settings.yml`) is a
  `Participant` structure; Python `==` on these dicts is value equality on both
  fields, i.e. `DecidableEq Participant`.
* Randomness is made explicit.  `random.shuffle(receivers)` (line 130) is
  modelled by passing the already-shuffled receiver list `shuffled` as an
  argument; every possible shuffle is a permutation of the input, so theorems
  quantify over `shuffled.Perm participants`.  Each call
  `random.choice(receivers)` (line 136) consumes one number `d` from a stream
  `ds : List Nat` and picks index `d % receivers.length`; every sequence of
  uniform draws is realised by some stream.  A stream that runs out models a
  run of the inner `while True` loop that has not yet terminated, giving the
  artificial outcome `diverge` (the Python loop simply keeps drawing).
* `receivers.remove(receiver)` (line 149) removes the first element `==` the
  drawn one, which is `List.erase`.
* The `assert` statements of the "paranoia test" (lines 152-165) become the
  Boolean `checkPairing`; a failed assertion is the outcome `assertFail`
  (an uncaught `AssertionError`, distinct from `DeadEndException`).
* The `__main__` retry loop (lines 257-268) is `run`: up to `maxAttempts = 20`
  calls of `solve`, each attempt with its own fresh randomness `rand k`;
  `DeadEndException` is caught and retried, success breaks out.  When all 20
  attempts dead-end the Python loop just falls through and the program prints
  "Finished!" and exits normally: that is the outcome `finishedNoPairing`.
-/

structure Participant where
  name : String
  email : String
  deriving DecidableEq

abbrev Pair := Participant × Participant

/-- Outcome of one execution of the inner `while True:` draw loop
(lines 135-150) for a fixed giver: a committed receiver together with the
remaining randomness, the `DeadEndException`, or exhaustion of the modelled
randomness stream. -/
inductive DrawOutcome where
  | picked (r : Participant) (rest : List Nat)
  | deadEnd
  | diverge
  deriving DecidableEq

/-- The inner `while True:` loop of `solve` (lines 135-150): draw
`receiver = random.choice(receivers)`; if it equals the giver, raise
`DeadEndException` when the pool has a single element, otherwise redraw;
if it differs, commit it. -/
def drawLoop (g : Participant) (recv : List Participant) : List Nat → DrawOutcome
  | [] => .diverge
  | d :: ds =>
    match recv.get? (d % recv.length) with
    | none => .diverge
    | some c =>
      if c = g then
        if recv.length = 1 then .deadEnd else drawLoop g recv ds
      else
        .picked c ds

/-- Outcome of the `for giver in givers:` loop of `solve` (lines 132-150). -/
inductive LoopOutcome where
  | finished (pairs : List Pair)
  | deadEnd
  | diverge
  deriving DecidableEq

/-- The `for giver in givers:` loop of `solve` (lines 132-150): pair each
giver in order with a drawn receiver, removing the receiver from the pool
(`receivers.remove(receiver)`), and propagate `DeadEndException` at once. -/
def solveLoop : List Participant → List Participant → List Nat → LoopOutcome
  | [], _, _ => .finished []
  | g :: gs, recv, ds =>
    match drawLoop g recv ds with
    | .deadEnd => .deadEnd
    | .diverge => .diverge
    | .picked r rest =>
      match solveLoop gs (recv.erase r) rest with
      | .finished ps => .finished ((g, r) :: ps)
      | .deadEnd => .deadEnd
      | .diverge => .diverge

/-- The "paranoia test" of `solve` (lines 152-165): every participant's name
occurs exactly once among the givers and exactly once among the receivers of
the produced pairs.  The Python comparison is by `["name"]` only. -/
def checkPairing (participants : List Participant) (pairs : List Pair) : Bool :=
  participants.all fun person =>
    pairs.countP (fun pr => pr.1.name == person.name) == 1 &&
    pairs.countP (fun pr => pr.2.name == person.name) == 1

/-- Result of one call of `solve` (lines 111-167): the returned pair list, a
raised `DeadEndException`, a failed paranoia `assert` (`AssertionError`), or
exhaustion of the modelled randomness stream. -/
inductive SolveOutcome where
  | ok (pairs : List Pair)
  | deadEnd
  | assertFail
  | diverge
  deriving DecidableEq

/-- `solve(participants)` (lines 111-167).  `shuffled` is the receiver list
after `random.shuffle`; `ds` is the stream feeding `random.choice`. -/
def solve (participants shuffled : List Participant) (ds : List Nat) : SolveOutcome :=
  match solveLoop participants shuffled ds with
  | .finished ps => if checkPairing participants ps then .ok ps else .assertFail
  | .deadEnd => .deadEnd
  | .diverge => .diverge

/-- Outcome of the `__main__` retry loop (lines 257-268), recording how many
times `attempts = attempts + 1` ran.  `finishedNoPairing` is the fall-through
after the bound: the program prints "Finished!" and exits normally, with no
pairing produced and no exception raised. -/
inductive DriverOutcome where
  | success (attempts : Nat) (pairs : List Pair)
  | finishedNoPairing (attempts : Nat)
  | crashed (attempts : Nat)
  | hung (attempts : Nat)
  deriving DecidableEq

/-- Per-attempt randomness: attempt `k` shuffles to `(rand k).1` and feeds
`random.choice` from `(rand k).2`. -/
abbrev RandSource := Nat → List Participant × List Nat

/-- `max_attempts = 20` (line 228). -/
def maxAttempts : Nat := 20

/-- The `for _ in range(max_attempts):` loop (lines 257-268), parametrised by
remaining iterations and the value of the `attempts` counter.  `solve` raising
`DeadEndException` is caught and retried; a returned pairing breaks out of the
loop; an `AssertionError` is not caught and crashes the program. -/
def runFrom (p : List Participant) (rand : RandSource) : Nat → Nat → DriverOutcome
  | 0, attempts => .finishedNoPairing attempts
  | fuel + 1, attempts =>
    match solve p (rand attempts).1 (rand attempts).2 with
    | .ok ps => .success (attempts + 1) ps
    | .deadEnd => runFrom p rand fuel (attempts + 1)
    | .assertFail => .crashed (attempts + 1)
    | .diverge => .hung (attempts + 1)

/-- The whole `__main__` retry loop: 20 iterations, counter starting at 0. -/
def run (p : List Participant) (rand : RandSource) : DriverOutcome :=
  runFrom p rand maxAttempts 0

/-- Concrete participant used by closed witness theorems. -/
def pa : Participant := ⟨"Alice", "alice@example.com"⟩

/-- Concrete participant used by closed witness theorems. -/
def pb : Participant := ⟨"Bob", "bob@example.com"⟩

/-- Concrete per-attempt randomness used by a closed witness theorem:
every attempt shuffles the pool to `[pb, pa]` and draws index 0 twice. -/
def randW : RandSource := fun _ => ([pb, pa], [0, 0])

inductive DrawRel (g : Participant) (recv : List Participant) : List Nat → DrawOutcome → Prop where
  | nilDiverge : DrawRel g recv [] .diverge
  | noneDiverge (d : Nat) (ds : List Nat)
      (hc : recv.get? (d % recv.length) = none) : DrawRel g recv (d :: ds) .diverge
  | dead (d : Nat) (ds : List Nat) (c : Participant)
      (hc : recv.get? (d % recv.length) = some c) (hg : c = g) (h1 : recv.length = 1) :
      DrawRel g recv (d :: ds) .deadEnd
  | redraw (d : Nat) (ds : List Nat) (c : Participant) (o : DrawOutcome)
      (hc : recv.get? (d % recv.length) = some c) (hg : c = g) (h1 : recv.length ≠ 1)
      (h : DrawRel g recv ds o) : DrawRel g recv (d :: ds) o
  | pick (d : Nat) (ds : List Nat) (c : Participant)
      (hc : recv.get? (d % recv.length) = some c) (hg : c ≠ g) :
      DrawRel g recv (d :: ds) (.picked c ds)

inductive LoopRel : List Participant → List Participant → List Nat → LoopOutcome → Prop where
  | nil (recv : List Participant) (ds : List Nat) : LoopRel [] recv ds (.finished [])
  | dead (g : Participant) (gs recv : List Participant) (ds : List Nat)
      (h : DrawRel g recv ds .deadEnd) : LoopRel (g :: gs) recv ds .deadEnd
  | div (g : Participant) (gs recv : List Participant) (ds : List Nat)
      (h : DrawRel g recv ds .diverge) : LoopRel (g :: gs) recv ds .diverge
  | stepFinished (g : Participant) (gs recv : List Participant) (ds : List Nat)
      (r : Participant) (rest : List Nat) (ps : List Pair)
      (h : DrawRel g recv ds (.picked r rest))
      (hrec : LoopRel gs (recv.erase r) rest (.finished ps)) :
      LoopRel (g :: gs) recv ds (.finished ((g, r) :: ps))
  | stepDead (g : Participant) (gs recv : List Participant) (ds : List Nat)
      (r : Participant) (rest : List Nat)
      (h : DrawRel g recv ds (.picked r rest))
      (hrec : LoopRel gs (recv.erase r) rest .deadEnd) :
      LoopRel (g :: gs) recv ds .deadEnd
  | stepDiv (g : Participant) (gs recv : List Participant) (ds : List Nat)
      (r : Participant) (rest : List Nat)
      (h : DrawRel g recv ds (.picked r rest))
      (hrec : LoopRel gs (recv.erase r) rest .diverge) :
      LoopRel (g :: gs) recv ds .diverge

inductive SolveRel (p s : List Participant) (ds : List Nat) : SolveOutcome → Prop where
  | ok (ps : List Pair) (h : LoopRel p s ds (.finished ps)) (hc : checkPairing p ps = true) :
      SolveRel p s ds (.ok ps)
  | assertFailed (ps : List Pair) (h : LoopRel p s ds (.finished ps))
      (hc : checkPairing p ps = false) : SolveRel p s ds .assertFail
  | dead (h : LoopRel p s ds .deadEnd) : SolveRel p s ds .deadEnd
  | div (h : LoopRel p s ds .diverge) : SolveRel p s ds .diverge

structure PyState where
  participants : List Participant
  givers : List Participant
  receivers : List Participant
  pairs : List Pair
  deriving DecidableEq

inductive LoopSig where
  | done
  | dead
  | div
  deriving DecidableEq

def solveLoopS : List Participant → PyState → List Nat → LoopSig × PyState
  | [], st, _ => (.done, st)
  | g :: gs, st, ds =>
    match drawLoop g st.receivers ds with
    | .deadEnd => (.dead, st)
    | .diverge => (.div, st)
    | .picked r rest =>
      solveLoopS gs
        { st with receivers := st.receivers.erase r, pairs := st.pairs ++ [(g, r)] } rest

def solveS (participants shuffled : List Participant) (ds : List Nat) : LoopSig × PyState :=
  solveLoopS participants
    { participants := participants, givers := participants,
      receivers := shuffled, pairs := [] } ds

theorem drawLoop_picked_spec (g : Participant) (recv : List Participant) :
    ∀ (ds : List Nat) (r : Participant) (rest : List Nat),
      drawLoop g recv ds = .picked r rest → r ∈ recv ∧ r ≠ g := by
  intro ds
  induction ds with
  | nil => intro r rest h; simp [drawLoop] at h
  | cons d ds ih =>
    intro r rest h
    rw [drawLoop] at h
    split at h
    · simp at h
    · next c hc =>
      split at h
      · split at h
        · simp at h
        · exact ih r rest h
      · next hg =>
        injection h with h1 h2
        subst h1
        exact ⟨List.get?_mem hc, hg⟩

theorem solveLoop_finished_spec :
    ∀ (gs recv : List Participant) (ds : List Nat) (ps : List Pair),
      solveLoop gs recv ds = .finished ps →
      ps.map Prod.fst = gs
      ∧ (∃ pool : List Participant, (ps.map Prod.snd ++ pool).Perm recv)
      ∧ (∀ pr ∈ ps, pr.1 ≠ pr.2) := by
  intro gs
  induction gs with
  | nil =>
    intro recv ds ps h
    rw [solveLoop] at h
    injection h with h1
    subst h1
    exact ⟨rfl, ⟨recv, by simp⟩, by simp⟩
  | cons g gs ih =>
    intro recv ds ps h
    rw [solveLoop] at h
    split at h
    · simp at h
    · simp at h
    · next r rest hdraw =>
      split at h
      · next qs hq =>
        injection h with h1
        subst h1
        obtain ⟨hr, hneq⟩ := drawLoop_picked_spec g recv ds r rest hdraw
        obtain ⟨hfst, ⟨pool, hperm⟩, hself⟩ := ih (recv.erase r) rest qs hq
        refine ⟨by simp [hfst], ⟨pool, ?_⟩, ?_⟩
        · exact (hperm.cons r).trans (List.perm_cons_erase hr).symm
        · intro pr hpr
          rcases List.mem_cons.mp hpr with h' | h'
          · subst h'; exact Ne.symm hneq
          · exact hself pr h'
      · simp at h
      · simp at h

theorem solveLoop_finished_perm (p s : List Participant) (ds : List Nat) (qs : List Pair)
    (hs : s.Perm p) (hq : solveLoop p s ds = .finished qs) :
    qs.map Prod.fst = p ∧ (qs.map Prod.snd).Perm p ∧ (∀ pr ∈ qs, pr.1 ≠ pr.2) := by
  obtain ⟨hfst, ⟨pool, hperm⟩, hself⟩ := solveLoop_finished_spec p s ds _ hq
  have hlen : qs.length + pool.length = s.length := by
    have := hperm.length_eq
    simpa using this
  have hlenps : qs.length = p.length := by
    rw [← hfst]; simp
  have hsp : s.length = p.length := hs.length_eq
  have hpool : pool = [] := List.length_eq_zero.mp (by omega)
  subst hpool
  have hsnd : (qs.map Prod.snd).Perm p := by
    have := hperm.trans hs
    simpa using this
  exact ⟨hfst, hsnd, hself⟩

theorem solve_ok_spec (p s : List Participant) (ds : List Nat) (ps : List Pair)
    (hs : s.Perm p) (h : solve p s ds = .ok ps) :
    ps.map Prod.fst = p ∧ (ps.map Prod.snd).Perm p ∧ (∀ pr ∈ ps, pr.1 ≠ pr.2)
    ∧ checkPairing p ps = true := by
  rw [solve] at h
  split at h
  · next qs hq =>
    split at h
    · next hchk =>
      injection h with h1
      subst h1
      obtain ⟨hfst, hsnd, hself⟩ := solveLoop_finished_perm p s ds _ hs hq
      exact ⟨hfst, hsnd, hself, hchk⟩
    · simp at h
  · simp at h
  · simp at h

theorem checkPairing_of_perm (p : List Participant) (qs : List Pair)
    (hfst : qs.map Prod.fst = p) (hsnd : (qs.map Prod.snd).Perm p)
    (hnames : (p.map Participant.name).Nodup) : checkPairing p qs = true := by
  rw [checkPairing, List.all_eq_true]
  intro person hperson
  have hmem : person.name ∈ p.map Participant.name := List.mem_map_of_mem _ hperson
  have hcount : (p.map Participant.name).count person.name = 1 :=
    List.count_eq_one_of_mem hnames hmem
  have hg : (qs.map fun pr => pr.1.name).count person.name
      = qs.countP (fun pr => pr.1.name == person.name) := by
    rw [List.count_eq_countP, List.countP_map]
    rfl
  have hmapg : (qs.map fun pr => pr.1.name) = p.map Participant.name := by
    rw [← hfst, List.map_map]
    rfl
  have hr : (qs.map fun pr => pr.2.name).count person.name
      = qs.countP (fun pr => pr.2.name == person.name) := by
    rw [List.count_eq_countP, List.countP_map]
    rfl
  have hmapr : ((qs.map fun pr => pr.2.name)).Perm (p.map Participant.name) := by
    have := hsnd.map Participant.name
    rwa [List.map_map] at this
  have h1 : qs.countP (fun pr => pr.1.name == person.name) = 1 := by
    rw [← hg, hmapg, hcount]
  have h2 : qs.countP (fun pr => pr.2.name == person.name) = 1 := by
    rw [← hr, hmapr.count_eq, hcount]
  simp [h1, h2]

theorem perm_pair_cases (a b : Participant) (s : List Participant) (h : s.Perm [a, b]) :
    s = [a, b] ∨ s = [b, a] := by
  have hlen : s.length = 2 := h.length_eq
  obtain - | ⟨x, - | ⟨y, - | ⟨z, t⟩⟩⟩ := s
  · simp at hlen
  · simp at hlen
  · have hx : x ∈ [a, b] := h.mem_iff.mp (by simp)
    rcases (by simpa using hx : x = a ∨ x = b) with rfl | rfl
    · left
      have := h.cons_inv
      rw [List.perm_singleton.mp this]
    · right
      have hba : (x :: y :: []).Perm (x :: a :: []) := h.trans (List.Perm.swap x a [])
      have := hba.cons_inv
      rw [List.perm_singleton.mp this]
  · simp at hlen

theorem drawLoop_pair (g x : Participant) (recv : List Participant)
    (hrecv : recv = [g, x] ∨ recv = [x, g]) (hne : x ≠ g) :
    ∀ ds : List Nat, drawLoop g recv ds = .diverge
      ∨ ∃ rest, drawLoop g recv ds = .picked x rest := by
  intro ds
  induction ds with
  | nil => left; rcases hrecv with rfl | rfl <;> rfl
  | cons d ds ih =>
    rcases Nat.mod_two_eq_zero_or_one d with hd | hd
    · rcases hrecv with rfl | rfl
      · have heq : drawLoop g [g, x] (d :: ds) = drawLoop g [g, x] ds := by
          rw [drawLoop]
          simp [hd]
        rw [heq]; exact ih
      · right
        exact ⟨ds, by rw [drawLoop]; simp [hd, hne]⟩
    · rcases hrecv with rfl | rfl
      · right
        exact ⟨ds, by rw [drawLoop]; simp [hd, hne]⟩
      · have heq : drawLoop g [x, g] (d :: ds) = drawLoop g [x, g] ds := by
          rw [drawLoop]
          simp [hd]
        rw [heq]; exact ih

theorem runFrom_success_spec (p : List Participant) (rand : RandSource) :
    ∀ (fuel attempts n : Nat) (ps : List Pair),
      runFrom p rand fuel attempts = .success n ps →
      attempts < n ∧ n ≤ attempts + fuel
      ∧ solve p (rand (n - 1)).1 (rand (n - 1)).2 = .ok ps
      ∧ ∀ k, attempts ≤ k → k < n - 1 → solve p (rand k).1 (rand k).2 = .deadEnd := by
  intro fuel
  induction fuel with
  | zero =>
    intro attempts n ps h
    simp [runFrom] at h
  | succ fuel ih =>
    intro attempts n ps h
    rw [runFrom] at h
    split at h
    · next qs hok =>
      injection h with h1 h2
      subst h1
      subst h2
      refine ⟨by omega, by omega, by simpa using hok, ?_⟩
      intro k hk1 hk2
      omega
    · next hdead =>
      obtain ⟨ih1, ih2, ih3, ih4⟩ := ih (attempts + 1) n ps h
      refine ⟨by omega, by omega, ih3, ?_⟩
      intro k hk1 hk2
      rcases Nat.eq_or_lt_of_le hk1 with heq | hlt
      · rw [← heq]
        exact hdead
      · exact ih4 k (by omega) hk2
    · simp at h
    · simp at h

theorem runFrom_exhausted_spec (p : List Participant) (rand : RandSource) :
    ∀ (fuel attempts n : Nat),
      runFrom p rand fuel attempts = .finishedNoPairing n →
      n = attempts + fuel
      ∧ ∀ k, attempts ≤ k → k < n → solve p (rand k).1 (rand k).2 = .deadEnd := by
  intro fuel
  induction fuel with
  | zero =>
    intro attempts n h
    rw [runFrom] at h
    injection h with h1
    subst h1
    exact ⟨rfl, fun k hk1 hk2 => absurd hk1 (by omega)⟩
  | succ fuel ih =>
    intro attempts n h
    rw [runFrom] at h
    split at h
    · simp at h
    · next hdead =>
      obtain ⟨ih1, ih2⟩ := ih (attempts + 1) n h
      refine ⟨by omega, ?_⟩
      intro k hk1 hk2
      rcases Nat.eq_or_lt_of_le hk1 with heq | hlt
      · rw [← heq]
        exact hdead
      · exact ih2 k (by omega) hk2
    · simp at h
    · simp at h

theorem DrawRel.eq_drawLoop {g : Participant} {recv : List Participant} {ds : List Nat}
    {o : DrawOutcome} (h : DrawRel g recv ds o) : drawLoop g recv ds = o := by
  induction h with
  | nilDiverge => rfl
  | noneDiverge d ds hc => rw [drawLoop, hc]
  | dead d ds c hc hg h1 =>
    rw [drawLoop, hc]
    simp [hg, h1]
  | redraw d ds c o hc hg h1 h ih =>
    rw [drawLoop, hc]
    simp [hg, h1, ih]
  | pick d ds c hc hg =>
    rw [drawLoop, hc]
    simp [hg]

theorem LoopRel.eq_solveLoop {gs recv : List Participant} {ds : List Nat}
    {o : LoopOutcome} (h : LoopRel gs recv ds o) : solveLoop gs recv ds = o := by
  induction h with
  | nil recv ds => rfl
  | dead g gs recv ds h =>
    rw [solveLoop, h.eq_drawLoop]
  | div g gs recv ds h =>
    rw [solveLoop, h.eq_drawLoop]
  | stepFinished g gs recv ds r rest ps h hrec ih =>
    rw [solveLoop, h.eq_drawLoop]
    simp [ih]
  | stepDead g gs recv ds r rest h hrec ih =>
    rw [solveLoop, h.eq_drawLoop]
    simp [ih]
  | stepDiv g gs recv ds r rest h hrec ih =>
    rw [solveLoop, h.eq_drawLoop]
    simp [ih]

theorem SolveRel.eq_solve {p s : List Participant} {ds : List Nat}
    {o : SolveOutcome} (h : SolveRel p s ds o) : solve p s ds = o := by
  cases h with
  | ok ps h hc =>
    rw [solve, h.eq_solveLoop]
    simp [hc]
  | assertFailed ps h hc =>
    rw [solve, h.eq_solveLoop]
    simp [hc]
  | dead h => rw [solve, h.eq_solveLoop]
  | div h => rw [solve, h.eq_solveLoop]

theorem drawRel_drawLoop (g : Participant) (recv : List Participant) :
    ∀ ds : List Nat, DrawRel g recv ds (drawLoop g recv ds) := by
  intro ds
  induction ds with
  | nil => exact .nilDiverge
  | cons d ds ih =>
    rw [drawLoop]
    split
    · next hc => exact .noneDiverge d ds hc
    · next c hc =>
      split
      · next hg =>
        split
        · next h1 => exact .dead d ds c hc hg h1
        · next h1 => exact .redraw d ds c _ hc hg h1 ih
      · next hg => exact .pick d ds c hc hg

theorem loopRel_solveLoop : ∀ (gs recv : List Participant) (ds : List Nat),
    LoopRel gs recv ds (solveLoop gs recv ds) := by
  intro gs
  induction gs with
  | nil => intro recv ds; exact .nil recv ds
  | cons g gs ih =>
    intro recv ds
    cases hdraw : drawLoop g recv ds with
    | deadEnd =>
      have heq : solveLoop (g :: gs) recv ds = .deadEnd := by
        rw [solveLoop, hdraw]
      rw [heq]
      exact .dead g gs recv ds (hdraw ▸ drawRel_drawLoop g recv ds)
    | diverge =>
      have heq : solveLoop (g :: gs) recv ds = .diverge := by
        rw [solveLoop, hdraw]
      rw [heq]
      exact .div g gs recv ds (hdraw ▸ drawRel_drawLoop g recv ds)
    | picked r rest =>
      have hd : DrawRel g recv ds (.picked r rest) := hdraw ▸ drawRel_drawLoop g recv ds
      cases hrec : solveLoop gs (recv.erase r) rest with
      | finished qs =>
        have heq : solveLoop (g :: gs) recv ds = .finished ((g, r) :: qs) := by
          rw [solveLoop, hdraw]
          simp [hrec]
        rw [heq]
        exact .stepFinished g gs recv ds r rest qs hd (hrec ▸ ih (recv.erase r) rest)
      | deadEnd =>
        have heq : solveLoop (g :: gs) recv ds = .deadEnd := by
          rw [solveLoop, hdraw]
          simp [hrec]
        rw [heq]
        exact .stepDead g gs recv ds r rest hd (hrec ▸ ih (recv.erase r) rest)
      | diverge =>
        have heq : solveLoop (g :: gs) recv ds = .diverge := by
          rw [solveLoop, hdraw]
          simp [hrec]
        rw [heq]
        exact .stepDiv g gs recv ds r rest hd (hrec ▸ ih (recv.erase r) rest)

theorem solveRel_solve (p s : List Participant) (ds : List Nat) :
    SolveRel p s ds (solve p s ds) := by
  cases hl : solveLoop p s ds with
  | finished qs =>
    have h : LoopRel p s ds (.finished qs) := hl ▸ loopRel_solveLoop p s ds
    have heq : solve p s ds = if checkPairing p qs then .ok qs else .assertFail := by
      rw [solve, hl]
    rw [heq]
    split
    · next hc => exact .ok qs h hc
    · next hc => exact .assertFailed qs h (by simpa using hc)
  | deadEnd =>
    have heq : solve p s ds = .deadEnd := by rw [solve, hl]
    rw [heq]
    exact .dead (hl ▸ loopRel_solveLoop p s ds)
  | diverge =>
    have heq : solve p s ds = .diverge := by rw [solve, hl]
    rw [heq]
    exact .div (hl ▸ loopRel_solveLoop p s ds)

theorem solveLoopS_spec :
    ∀ (gs : List Participant) (st : PyState) (ds : List Nat),
      (solveLoopS gs st ds).2.participants = st.participants
      ∧ (solveLoopS gs st ds).2.givers = st.givers
      ∧ ((solveLoopS gs st ds).1 = .done →
          ∃ qs, solveLoop gs st.receivers ds = .finished qs
            ∧ (solveLoopS gs st ds).2.pairs = st.pairs ++ qs) := by
  intro gs
  induction gs with
  | nil =>
    intro st ds
    exact ⟨rfl, rfl, fun _ => ⟨[], rfl, by simp [solveLoopS]⟩⟩
  | cons g gs ih =>
    intro st ds
    cases hdraw : drawLoop g st.receivers ds with
    | deadEnd =>
      have heq : solveLoopS (g :: gs) st ds = (.dead, st) := by
        rw [solveLoopS, hdraw]
      rw [heq]
      exact ⟨rfl, rfl, fun hcontra => by simp at hcontra⟩
    | diverge =>
      have heq : solveLoopS (g :: gs) st ds = (.div, st) := by
        rw [solveLoopS, hdraw]
      rw [heq]
      exact ⟨rfl, rfl, fun hcontra => by simp at hcontra⟩
    | picked r rest =>
      have heq : solveLoopS (g :: gs) st ds
          = solveLoopS gs
              { st with receivers := st.receivers.erase r, pairs := st.pairs ++ [(g, r)] }
              rest := by
        rw [solveLoopS, hdraw]
      rw [heq]
      obtain ⟨h1, h2, h3⟩ :=
        ih { st with receivers := st.receivers.erase r, pairs := st.pairs ++ [(g, r)] } rest
      refine ⟨h1, h2, ?_⟩
      intro hdone
      obtain ⟨qs, hq, hp⟩ := h3 hdone
      refine ⟨(g, r) :: qs, ?_, ?_⟩
      · rw [solveLoop, hdraw]
        simp [hq]
      · rw [hp]
        simp


/-- Claim C1 (code behaviour at the failing input): when every attempt raises
`DeadEndException` — here a single-participant list, on which `solve` always
dead-ends — the retry loop of `__main__` performs exactly its 20 attempts and
then simply falls through: the program prints "Finished!" and exits normally.
No `ExhaustedAttempts` failure exists in the code and nothing is surfaced to
the caller, contradicting the claim that exhaustion is a hard failure. -/
theorem c1_bound_exhaustion_exits_normally :
    run [pa] (fun _ => ([pa], [0])) = .finishedNoPairing 20 := rfl

/-- Claim C2: with exactly two participants of distinct names, `solve` never
raises `DeadEndException`; under every random stream that lets the draw loops
terminate it returns exactly the pairing [(a, b), (b, a)] (the only other
possible outcome of the model is `diverge`, i.e. a stream too short to finish
the draws). -/
theorem c2_two_participant_edge_case (a b : Participant) (s : List Participant)
    (ds : List Nat) (hname : a.name ≠ b.name) (hs : s.Perm [a, b]) :
    solve [a, b] s ds = .diverge ∨ solve [a, b] s ds = .ok [(a, b), (b, a)] := by
  have hab : a ≠ b := fun h => hname (congrArg Participant.name h)
  have hrecv := perm_pair_cases a b s hs
  rcases drawLoop_pair a b s hrecv (Ne.symm hab) ds with hdiv | ⟨rest, hpick⟩
  · left
    simp [solve, solveLoop, hdiv]
  · have herase : s.erase b = [a] := by
      rcases hrecv with rfl | rfl
      · simp [List.erase_cons, hab]
      · simp [List.erase_cons]
    cases rest with
    | nil =>
      left
      simp [solve, solveLoop, hpick, herase, drawLoop]
    | cons d' rest' =>
      right
      have hpick2 : drawLoop b [a] (d' :: rest') = .picked a rest' := by
        rw [drawLoop]
        simp [Nat.mod_one, hab]
      have hchk : checkPairing [a, b] [(a, b), (b, a)] = true := by
        simp [checkPairing, hname, Ne.symm hname]
      simp [solve, solveLoop, hpick, herase, hpick2, hchk]

theorem c2_two_participant_edge_case_witness :
    solve [pa, pb] [pb, pa] [0, 0] = .diverge
    ∨ solve [pa, pb] [pb, pa] [0, 0] = .ok [(pa, pb), (pb, pa)] :=
  c2_two_participant_edge_case pa pb [pb, pa] [0, 0] (by decide) (by decide)

/-- Claim C3 (completeness): every pairing returned (not raised) by `solve` on
a list of at least 2 participants with pairwise-distinct names has one pair
per participant, and each participant occurs exactly once as a giver and
exactly once as a receiver (counting by the full participant record). -/
theorem c3_completeness (p s : List Participant) (ds : List Nat) (ps : List Pair)
    (hs : s.Perm p) (hnames : (p.map Participant.name).Nodup) (hlen : 2 ≤ p.length)
    (h : solve p s ds = .ok ps) :
    ps.length = p.length
    ∧ ∀ person ∈ p,
        ps.countP (fun pr => pr.1 == person) = 1
        ∧ ps.countP (fun pr => pr.2 == person) = 1 := by
  obtain ⟨hfst, hsnd, hself, hchk⟩ := solve_ok_spec p s ds ps hs h
  have hnodup : p.Nodup := List.Nodup.of_map _ hnames
  constructor
  · rw [← hfst]
    simp
  · intro person hperson
    have hpcount : p.count person = 1 := List.count_eq_one_of_mem hnodup hperson
    constructor
    · have e1 : (ps.map Prod.fst).count person = ps.countP (fun pr => pr.1 == person) := by
        rw [List.count_eq_countP, List.countP_map]
        rfl
      rw [← e1, hfst, hpcount]
    · have e2 : (ps.map Prod.snd).count person = ps.countP (fun pr => pr.2 == person) := by
        rw [List.count_eq_countP, List.countP_map]
        rfl
      rw [← e2, hsnd.count_eq, hpcount]

theorem c3_completeness_witness :
    ([(pa, pb), (pb, pa)] : List Pair).length = ([pa, pb] : List Participant).length
    ∧ ([(pa, pb), (pb, pa)] : List Pair).countP (fun pr => pr.1 == pa) = 1 :=
  ⟨(c3_completeness [pa, pb] [pb, pa] [0, 0] [(pa, pb), (pb, pa)]
      (by decide) (by decide) (by decide) (by decide)).1,
   ((c3_completeness [pa, pb] [pb, pa] [0, 0] [(pa, pb), (pb, pa)]
      (by decide) (by decide) (by decide) (by decide)).2 pa (by decide)).1⟩

/-- Claim C4 (no self-pairing): in every pairing returned by `solve`, no pair
has its giver equal to its receiver (equality of the full record, which is
what the Python `receiver == giver` test compares). No distinctness or
permutation hypothesis is needed. -/
theorem c4_no_self_pairing (p s : List Participant) (ds : List Nat) (ps : List Pair)
    (h : solve p s ds = .ok ps) : ∀ pr ∈ ps, pr.1 ≠ pr.2 := by
  rw [solve] at h
  split at h
  · next qs hq =>
    split at h
    · next hchk =>
      injection h with h1
      subst h1
      exact (solveLoop_finished_spec p s ds _ hq).2.2
    · simp at h
  · simp at h
  · simp at h

theorem c4_no_self_pairing_witness : (pa, pb).1 ≠ (pa, pb).2 :=
  c4_no_self_pairing [pa, pb] [pb, pa] [0, 0] [(pa, pb), (pb, pa)]
    (by decide) (pa, pb) (by decide)

/-- Claim C5: the draw loop raises `DeadEndException` exactly when a drawn
candidate equals the current giver while the receiver pool holds only that
one element (first conjunct, an iff); and when that happens the whole
attempt fails immediately — whatever givers remain, `solveLoop` returns the
bare `deadEnd` outcome, which carries no pairs, so no partial pairing is
ever produced (second conjunct). -/
theorem c5_dead_end_characterization :
    (∀ (g : Participant) (recv : List Participant) (ds : List Nat),
       drawLoop g recv ds = .deadEnd ↔
         ∃ d ds', ds = d :: ds'
           ∧ recv.get? (d % recv.length) = some g ∧ recv.length = 1)
    ∧ (∀ (g : Participant) (gs recv : List Participant) (ds : List Nat),
        drawLoop g recv ds = .deadEnd → solveLoop (g :: gs) recv ds = .deadEnd) := by
  constructor
  · intro g recv ds
    constructor
    · intro h
      induction ds with
      | nil => simp [drawLoop] at h
      | cons d ds ih =>
        rw [drawLoop] at h
        split at h
        · simp at h
        · next c hc =>
          split at h
          · next hg =>
            split at h
            · next h1 => exact ⟨d, ds, rfl, hg ▸ hc, h1⟩
            · next h1 =>
              obtain ⟨d', ds'', -, -, h1'⟩ := ih h
              exact absurd h1' h1
          · simp at h
    · rintro ⟨d, ds', rfl, hget, hlen⟩
      rw [drawLoop, hget]
      simp [hlen]
  · intro g gs recv ds h
    simp [solveLoop, h]

theorem c5_dead_end_characterization_witness :
    solveLoop [pa, pb] [pa] [0] = .deadEnd :=
  c5_dead_end_characterization.2 pa [pb] [pa] [0]
    ((c5_dead_end_characterization.1 pa [pa] [0]).mpr ⟨0, [], rfl, by decide, by decide⟩)

/-- Claim C6: the driver calls `solve` once per attempt with that attempt's
own fresh randomness; it makes at most `maxAttempts = 20` calls; a success at
attempt `n` means every earlier attempt dead-ended and no further attempt is
made (`n ≤ 20`), and falling through without a pairing happens exactly after
20 dead-ended attempts. -/
theorem c6_driver_retry_semantics (p : List Participant) (rand : RandSource) :
    (∀ (n : Nat) (ps : List Pair), run p rand = .success n ps →
       1 ≤ n ∧ n ≤ maxAttempts
       ∧ solve p (rand (n - 1)).1 (rand (n - 1)).2 = .ok ps
       ∧ ∀ k, k < n - 1 → solve p (rand k).1 (rand k).2 = .deadEnd)
    ∧ (∀ n : Nat, run p rand = .finishedNoPairing n →
       n = maxAttempts ∧ ∀ k, k < maxAttempts → solve p (rand k).1 (rand k).2 = .deadEnd) := by
  constructor
  · intro n ps h
    obtain ⟨h1, h2, h3, h4⟩ := runFrom_success_spec p rand maxAttempts 0 n ps h
    exact ⟨by omega, by simpa using h2, h3, fun k hk => h4 k (Nat.zero_le k) hk⟩
  · intro n h
    obtain ⟨h1, h2⟩ := runFrom_exhausted_spec p rand maxAttempts 0 n h
    refine ⟨by simpa using h1, ?_⟩
    intro k hk
    refine h2 k (Nat.zero_le k) (by omega)

theorem c6_driver_retry_semantics_witness :
    solve [pa, pb] (randW 0).1 (randW 0).2 = .ok [(pa, pb), (pb, pa)] :=
  ((c6_driver_retry_semantics [pa, pb] randW).1 1 [(pa, pb), (pb, pa)] (by decide)).2.2.1

/-- Claim C7: with at least 2 participants of pairwise-distinct names, the
paranoia `assert` of `solve` never fires (`assertFail` is unreachable), and
re-running the invariant check on any returned pairing succeeds. -/
theorem c7_invariant_check_always_passes (p s : List Participant) (ds : List Nat)
    (hs : s.Perm p) (hnames : (p.map Participant.name).Nodup) (hlen : 2 ≤ p.length) :
    solve p s ds ≠ .assertFail
    ∧ ∀ ps, solve p s ds = .ok ps → checkPairing p ps = true := by
  constructor
  · intro hcontra
    rw [solve] at hcontra
    split at hcontra
    · next qs hq =>
      obtain ⟨hfst, hsnd, -⟩ := solveLoop_finished_perm p s ds qs hs hq
      rw [checkPairing_of_perm p qs hfst hsnd hnames] at hcontra
      simp at hcontra
    · simp at hcontra
    · simp at hcontra
  · intro ps h
    exact (solve_ok_spec p s ds ps hs h).2.2.2

theorem c7_invariant_check_always_passes_witness :
    checkPairing [pa, pb] [(pa, pb), (pb, pa)] = true :=
  (c7_invariant_check_always_passes [pa, pb] [pb, pa] [0, 0]
      (by decide) (by decide) (by decide)).2
    [(pa, pb), (pb, pa)] (by decide)

/-- Claim C8 (frame property): in the state-threaded model of `solve`, whose
state carries the Python variables `participants`, `givers`, `receivers` and
`pairs` and in which every mutation of the source (`random.shuffle`,
`receivers.remove`, `pairs.append`) acts on the deep copies, the input
`participants` (and the `givers` copy) are unchanged whether `solve` returns
or raises, and the returned pairs agree with the functional model. -/
theorem c8_no_mutation_of_input (p s : List Participant) (ds : List Nat) :
    (solveS p s ds).2.participants = p
    ∧ (solveS p s ds).2.givers = p
    ∧ ((solveS p s ds).1 = .done →
        solveLoop p s ds = .finished (solveS p s ds).2.pairs) := by
  obtain ⟨h1, h2, h3⟩ :=
    solveLoopS_spec p
      { participants := p, givers := p, receivers := s, pairs := [] } ds
  refine ⟨h1, h2, ?_⟩
  intro hdone
  obtain ⟨qs, hq, hp⟩ := h3 hdone
  show solveLoop p s ds
      = .finished (solveLoopS p
          { participants := p, givers := p, receivers := s, pairs := [] } ds).2.pairs
  rw [hp]
  simpa using hq

theorem c8_no_mutation_of_input_witness :
    solveLoop [pa, pb] [pb, pa] [0, 0] = .finished (solveS [pa, pb] [pb, pa] [0, 0]).2.pairs :=
  (c8_no_mutation_of_input [pa, pb] [pb, pa] [0, 0]).2.2 (by decide)

/-- Claim C9 (determinism under fixed randomness): `SolveRel` is the big-step
execution relation of `solve` — same participant list, same shuffle result,
same draw stream; any two outcomes it relates to the same inputs are equal,
so two runs consuming identical randomness end identically (same pairing, or
a dead end at the same point). -/
theorem c9_determinism_under_fixed_randomness (p s : List Participant) (ds : List Nat)
    (o₁ o₂ : SolveOutcome) (h₁ : SolveRel p s ds o₁) (h₂ : SolveRel p s ds o₂) :
    o₁ = o₂ := by
  rw [← h₁.eq_solve, ← h₂.eq_solve]

theorem c9_determinism_under_fixed_randomness_witness :
    solve [pa, pb] [pb, pa] [0, 0] = SolveOutcome.ok [(pa, pb), (pb, pa)] :=
  c9_determinism_under_fixed_randomness [pa, pb] [pb, pa] [0, 0]
    (solve [pa, pb] [pb, pa] [0, 0]) (.ok [(pa, pb), (pb, pa)])
    (solveRel_solve [pa, pb] [pb, pa] [0, 0])
    ((by decide : solve [pa, pb] [pb, pa] [0, 0] = .ok [(pa, pb), (pb, pa)]) ▸
      solveRel_solve [pa, pb] [pb, pa] [0, 0])

/-- Claim C10 (below-precondition inputs): `solve` on the empty list returns
the empty pairing without raising, and `solve` on a one-participant list
raises `DeadEndException` on the very first draw, for every random stream
that supplies at least one draw. -/
theorem c10_degenerate_inputs :
    (∀ (s : List Participant) (ds : List Nat), s.Perm [] → solve [] s ds = .ok [])
    ∧ (∀ (a : Participant) (s : List Participant) (ds : List Nat),
        s.Perm [a] → ds ≠ [] → solve [a] s ds = .deadEnd) := by
  constructor
  · intro s ds hs
    rw [List.perm_nil.mp hs]
    rfl
  · intro a s ds hs hds
    rw [List.perm_singleton.mp hs]
    cases ds with
    | nil => exact absurd rfl hds
    | cons d ds => simp [solve, solveLoop, drawLoop, Nat.mod_one]

theorem c10_degenerate_inputs_witness :
    solve [] [] [] = .ok [] ∧ solve [pa] [pa] [0] = .deadEnd :=
  ⟨c10_degenerate_inputs.1 [] [] (List.Perm.refl []),
   c10_degenerate_inputs.2 pa [pa] [0] (List.Perm.refl [pa]) (by decide)⟩
